import Mathlib

/-!
Verification of the knowledge-extraction and chunking core of the
company-rag-system repository (src/core/knowledge-extractor.ts and
src/core/rag-engine.ts), as a shallow embedding in Lean.

Strings are modelled as Lean `String` / `List Char`.  JavaScript regular
expressions that appear in the source are compiled by hand into
deterministic scanners over `List Char`; each scanner is annotated with
the regex it implements and the reasoning that makes the hand
compilation faithful.
-/

set_option maxRecDepth 100000

namespace CompanyRag

/-! ## JavaScript character classes -/

/-- JS whitespace (the `\s` class and the characters removed by
`String.prototype.trim`), restricted to the code points that can occur
here: space, tab, newline, carriage return, vertical tab, form feed,
NBSP, line separator, paragraph separator, BOM. -/
def isJsWs (c : Char) : Bool :=
  c == ' ' || c == '\t' || c == '\n' || c == '\r' ||
  c == '\x0b' || c == '\x0c' || c == Char.ofNat 0xa0 ||
  c == Char.ofNat 0x2028 || c == Char.ofNat 0x2029 || c == Char.ofNat 0xfeff

/-- JS line terminators (not matched by `.`). -/
def isLineTerm (c : Char) : Bool :=
  c == '\n' || c == '\r' || c == Char.ofNat 0x2028 || c == Char.ofNat 0x2029

/-- The JS `\w` class: `[A-Za-z0-9_]`. -/
def isWordChar (c : Char) : Bool :=
  (('a' ≤ c && c ≤ 'z') || ('A' ≤ c && c ≤ 'Z') || ('0' ≤ c && c ≤ '9') || c == '_')

/-- The class `[a-zA-Z0-9]` used by `generateId`. -/
def isAlnum (c : Char) : Bool :=
  (('a' ≤ c && c ≤ 'z') || ('A' ≤ c && c ≤ 'Z') || ('0' ≤ c && c ≤ '9'))

/-! ## JS string trimming -/

/-- Model of `String.prototype.trimStart` on a character list. -/
def jsTrimLeft (l : List Char) : List Char := l.dropWhile isJsWs

/-- Model of `String.prototype.trimEnd` on a character list. -/
def jsTrimRight (l : List Char) : List Char := (l.reverse.dropWhile isJsWs).reverse

/-- Model of `String.prototype.trim` on a character list. -/
def jsTrim (l : List Char) : List Char := jsTrimLeft (jsTrimRight l)

/-- Model of `String.prototype.trim`. -/
def jsTrimStr (s : String) : String := ⟨jsTrim s.data⟩

/-! ## Line splitting (`content.split('\n')`) -/

/-- JS `content.split('\n')`: the empty string yields `[""]`, a trailing
newline yields a trailing empty line. -/
def splitLines : List Char → List (List Char)
  | [] => [[]]
  | c :: rest =>
    if c = '\n' then [] :: splitLines rest
    else
      match splitLines rest with
      | l :: ls => (c :: l) :: ls
      | [] => [[c]]

/-! ## The simplified glob matcher (`KnowledgeExtractor.matchesPattern`)

The source converts a glob to a regex string with three global string
replacements and then runs an unanchored `RegExp.test`:

  pattern.replace all `**` by `.*`          (left to right)
         .replace all `*`  by `[^/]*`      (this also rewrites the `*`
                                            of every `.*` just produced,
                                            so `**` really becomes `.[^/]*`)
         .replace all `?`  by `.`
-/

/-- First replacement: every (leftmost, non-overlapping) `**` becomes `.*`. -/
def replaceStarStar : List Char → List Char
  | '*' :: '*' :: rest => '.' :: '*' :: replaceStarStar rest
  | c :: rest => c :: replaceStarStar rest
  | [] => []

/-- Second replacement: every `*` becomes `[^/]*`. -/
def replaceStar : List Char → List Char
  | '*' :: rest => '[' :: '^' :: '/' :: ']' :: '*' :: replaceStar rest
  | c :: rest => c :: replaceStar rest
  | [] => []

/-- Third replacement: every `?` becomes `.`. -/
def replaceQuestion : List Char → List Char
  | '?' :: rest => '.' :: replaceQuestion rest
  | c :: rest => c :: replaceQuestion rest
  | [] => []

/-- The glob-to-regex-source translation of `matchesPattern`. -/
def globToRegex (l : List Char) : List Char :=
  replaceQuestion (replaceStar (replaceStarStar l))

/-- The regex constructs that can occur in the regex sources built by
this program: literal characters, `.`, `[^/]*` and `.*`. -/
inductive Atom where
  | lit (c : Char)
  | anyChar
  | nonSlashStar
  | anyStar
  deriving DecidableEq, Repr

/-- Parse a regex source into atoms.  The regex sources this program
builds consist only of literal characters (everything that is not a
regex metacharacter stands for itself), unescaped `.` (any character
except a line terminator), the class-star `[^/]*` and the sequence `.*`;
the parser recognises exactly those. -/
def parseRegex : List Char → List Atom
  | '[' :: '^' :: '/' :: ']' :: '*' :: rest => Atom.nonSlashStar :: parseRegex rest
  | '.' :: '*' :: rest => Atom.anyStar :: parseRegex rest
  | '.' :: rest => Atom.anyChar :: parseRegex rest
  | c :: rest => Atom.lit c :: parseRegex rest
  | [] => []

/-- Character comparison, optionally case-insensitive (the `i` flag). -/
def jsCharEq (ci : Bool) (c d : Char) : Bool :=
  if ci then c.toLower == d.toLower else c == d

/-- All expansions of a starred single-character condition followed by a
continuation: either the continuation matches here, or one more
character satisfying `cond` is consumed and we repeat. -/
def starExpand (cond : Char → Bool) (contF : List Char → Bool) : List Char → Bool
  | [] => contF []
  | s@(d :: ds) => contF s || (cond d && starExpand cond contF ds)

/-- Can the atom sequence match some prefix of `s`?  Explores all
expansions of the stars, hence equals the backtracking JS engine on the
question of whether a match exists (match priority only affects which
match is chosen, not existence). -/
def matchAtoms (ci : Bool) : List Atom → List Char → Bool
  | [], _ => true
  | Atom.lit c :: as, s =>
    match s with
    | [] => false
    | d :: ds => jsCharEq ci c d && matchAtoms ci as ds
  | Atom.anyChar :: as, s =>
    match s with
    | [] => false
    | d :: ds => !isLineTerm d && matchAtoms ci as ds
  | Atom.nonSlashStar :: as, s => starExpand (fun d => d != '/') (matchAtoms ci as) s
  | Atom.anyStar :: as, s => starExpand (fun d => !isLineTerm d) (matchAtoms ci as) s

/-- Unanchored `RegExp.test`: try every start position. -/
def matchFrom (ci : Bool) (atoms : List Atom) : List Char → Bool
  | [] => matchAtoms ci atoms []
  | s@(_ :: ds) => matchAtoms ci atoms s || matchFrom ci atoms ds

/-- Model of `KnowledgeExtractor.matchesPattern(filePath, pattern)`. -/
def matchesPattern (filePath pattern : String) : Bool :=
  matchFrom false (parseRegex (globToRegex pattern.data)) filePath.data

/-! ## Extraction configuration -/

/-- Structure `LanguageConfig` (advisory metadata; never branched on). -/
structure LanguageConfig where
  extensions : List String
  commentPatterns : List String
  importPatterns : List String
  functionPatterns : List String
  classPatterns : List String
  deriving Repr, DecidableEq

/-- Structure `ExtractionConfig`. -/
structure ExtractionConfig where
  includePatterns : List String
  excludePatterns : List String
  languageConfigs : List (String × LanguageConfig)
  deriving Repr, DecidableEq

/-- The configuration installed by the `KnowledgeExtractor` constructor. -/
def defaultConfig : ExtractionConfig where
  includePatterns :=
    ["**/*.js", "**/*.jsx", "**/*.ts", "**/*.tsx",
     "**/*.py", "**/*.java", "**/*.go", "**/*.rs",
     "**/*.cpp", "**/*.c", "**/*.h", "**/*.hpp",
     "**/*.php", "**/*.rb", "**/*.swift", "**/*.kt",
     "**/*.md", "**/*.yaml", "**/*.yml", "**/*.json",
     "**/*.sql", "**/*.sh", "**/*.dockerfile",
     "**/README*", "**/CHANGELOG*", "**/API*"]
  excludePatterns :=
    ["**/node_modules/**",
     "**/dist/**",
     "**/build/**",
     "**/.git/**",
     "**/coverage/**",
     "**/*.min.js",
     "**/*.bundle.js",
     "**/vendor/**",
     "**/third_party/**"]
  languageConfigs :=
    [("javascript",
      { extensions := [".js", ".jsx"],
        commentPatterns := ["//", "/*", "*/", "/**"],
        importPatterns := ["import", "require", "from"],
        functionPatterns := ["function", "=>", "async function"],
        classPatterns := ["class", "extends"] }),
     ("typescript",
      { extensions := [".ts", ".tsx"],
        commentPatterns := ["//", "/*", "*/", "/**"],
        importPatterns := ["import", "require", "from"],
        functionPatterns := ["function", "=>", "async function"],
        classPatterns := ["class", "extends", "interface", "type"] }),
     ("python",
      { extensions := [".py"],
        commentPatterns := ["#", "\"\"\"", "'''"],
        importPatterns := ["import", "from"],
        functionPatterns := ["def ", "async def"],
        classPatterns := ["class "] }),
     ("markdown",
      { extensions := [".md"],
        commentPatterns := ["<!--", "-->"],
        importPatterns := [],
        functionPatterns := [],
        classPatterns := [] })]

/-- Model of `KnowledgeExtractor.shouldProcessFile`: every exclude pattern is
checked first (any match rejects), then the include patterns (any match
accepts), otherwise reject. -/
def shouldProcessFile (config : ExtractionConfig) (filePath : String) : Bool :=
  if config.excludePatterns.any (fun pattern => matchesPattern filePath pattern) then
    false
  else
    config.includePatterns.any (fun pattern => matchesPattern filePath pattern)

/-! ## The content chunker (`CompanyRAGEngine.splitContent`) -/

/-- Constant `maxChunkSize` of `splitContent`. -/
def maxChunkSize : Nat := 1000

/-- One iteration of the line loop in `splitContent`: if appending the
line would push the accumulated chunk over `maxChunkSize` and the chunk
is non-empty, flush the trimmed chunk and restart from this line;
otherwise append the line (with a separating newline when the chunk is
non-empty, mirroring `currentChunk += (currentChunk ? '\n' : '') + line`). -/
def chunkStep (st : List (List Char) × List Char) (line : List Char) :
    List (List Char) × List Char :=
  if maxChunkSize < st.2.length + line.length ∧ 0 < st.2.length then
    (st.1 ++ [jsTrim st.2], line)
  else
    (st.1, if st.2.isEmpty then line else st.2 ++ '\n' :: line)

/-- Final flush of the line loop: the accumulator is appended as a last
chunk when its trimmed form is non-empty
(`if (currentChunk.trim()) chunks.push(...)`). -/
def flushChunks (st : List (List Char) × List Char) : List (List Char) :=
  if (jsTrim st.2).isEmpty then st.1 else st.1 ++ [jsTrim st.2]

/-- The chunk list of `splitContent` before the empty-result fallback:
run the line loop over the lines, then flush the final accumulator. -/
def chunksOf (content : List Char) : List (List Char) :=
  flushChunks ((splitLines content).foldl chunkStep ([], []))

/-- Model of `CompanyRAGEngine.splitContent`: the accumulated chunks, or the
single original content when no chunk was produced
(`return chunks.length > 0 ? chunks : [content]`). -/
def splitContent (content : String) : List String :=
  let cs := chunksOf content.data
  if cs.isEmpty then [content] else cs.map (⟨·⟩)

/-! ## Generic non-overlapping scan (JS `matchAll` / `match` with the `g` flag)

Every regex of the content analyzer consumes at least one character per
match, so the global scan finds the leftmost match, continues right
after it, and advances by one character where no match starts. -/

/-- Check that the first list is a leading run of the second. -/
def startsWithChars : List Char → List Char → Bool
  | [], _ => true
  | _ :: _, [] => false
  | a :: ps, b :: ls => a == b && startsWithChars ps ls

/-- Model of JS `String.prototype.includes`. -/
def strIncludes (sub : List Char) : List Char → Bool
  | [] => sub.isEmpty
  | l@(_ :: ls) => startsWithChars sub l || strIncludes sub ls

/-- Non-overlapping global scan.  `tryf` attempts a match at the current
position and returns the payload plus the remaining input after the
match; on success the scan resumes after the match (the skip distance is
carried as a character count so that the recursion stays structural),
otherwise at the next character. -/
def scanAux {α : Type} (tryf : List Char → Option (α × List Char)) :
    List Char → Nat → List α
  | [], _ => []
  | s@(_ :: rest), 0 =>
    match tryf s with
    | some (a, r) => a :: scanAux tryf rest (s.length - 1 - r.length)
    | none => scanAux tryf rest 0
  | _ :: rest, k + 1 => scanAux tryf rest k

/-- All matches of `tryf`, scanned left to right without overlap. -/
def jsMatchAll {α : Type} (tryf : List Char → Option (α × List Char))
    (s : List Char) : List α :=
  scanAux tryf s 0

/-! ## Complexity score (`KnowledgeExtractor.calculateComplexity`) -/

/-- Matcher at the current position for `X\s*\(` (the regexes
`/if\s*\(/g` … of `calculateComplexity`): the literal keyword, greedy
`\s*`, then `(`.  No whitespace character equals `(`, so the
backtracking engine matches exactly when the character after the
maximal whitespace run is `(`. -/
def kwParenTry (kw : List Char) (s : List Char) : Option (Unit × List Char) :=
  if startsWithChars kw s then
    match (s.drop kw.length).dropWhile isJsWs with
    | c :: r => if c = '(' then some ((), r) else none
    | [] => none
  else none

/-- Matcher at the current position for `&&|\|\|`. -/
def opTry : List Char → Option (Unit × List Char)
  | c1 :: c2 :: r =>
    if (c1 = '&' ∧ c2 = '&') ∨ (c1 = '|' ∧ c2 = '|') then some ((), r) else none
  | _ => none

/-- Model of `KnowledgeExtractor.calculateComplexity`: the sum of the
global match counts of `if\s*\(`, `for\s*\(`, `while\s*\(`,
`switch\s*\(`, `catch\s*\(` and `&&|\|\|`. -/
def calculateComplexity (content : String) : Nat :=
  (jsMatchAll (kwParenTry "if".data) content.data).length +
  (jsMatchAll (kwParenTry "for".data) content.data).length +
  (jsMatchAll (kwParenTry "while".data) content.data).length +
  (jsMatchAll (kwParenTry "switch".data) content.data).length +
  (jsMatchAll (kwParenTry "catch".data) content.data).length +
  (jsMatchAll opTry content.data).length

/-! ## Regex building blocks shared by the extraction scanners -/

/-- Greedy `\s+`: at least one whitespace character, then the maximal
whitespace run; returns the rest. -/
def wsPlus : List Char → Option (List Char)
  | c :: rest => if isJsWs c then some (rest.dropWhile isJsWs) else none
  | [] => none

/-- Greedy `(\w+)`: the maximal non-empty word-character run and the rest. -/
def wordPlus (s : List Char) : Option (List Char × List Char) :=
  match s.takeWhile isWordChar with
  | [] => none
  | name => some (name, s.dropWhile isWordChar)

/-- Greedy `\S+`: the maximal non-empty non-whitespace run and the rest. -/
def nonWsPlus (s : List Char) : Option (List Char × List Char) :=
  match s.takeWhile (fun c => !isJsWs c) with
  | [] => none
  | cap => some (cap, s.dropWhile (fun c => !isJsWs c))

/-- Literal keyword followed by `\s+` (one keyword alternative of the
export/function regexes). -/
def kwWsTry (kw : List Char) (s : List Char) : Option (List Char) :=
  if startsWithChars kw s then wsPlus (s.drop kw.length) else none

/-- Quote characters of the class `['"` + backtick + `]`. -/
def isQuoteChar (c : Char) : Bool :=
  c == Char.ofNat 39 || c == Char.ofNat 34 || c == Char.ofNat 96

/-- Characters of the class `[\w.]`. -/
def isWordDot (c : Char) : Bool := isWordChar c || c == '.'

/-! ## Dependency extraction (`KnowledgeExtractor.extractDependencies`) -/

/-- Matcher for the tail `from\s+[quote]([^quote]+)[quote]` of the
ECMAScript import regex.  The quantifiers are deterministic here: no
whitespace character is a quote, and the character ending the maximal
non-quote run is a quote whenever one exists. -/
def importFromTail (s : List Char) : Option (List Char × List Char) :=
  if startsWithChars "from".data s then
    (wsPlus (s.drop 4)).bind fun r =>
      match r with
      | q :: r1 =>
        if isQuoteChar q then
          match r1.takeWhile (fun c => !isQuoteChar c) with
          | [] => none
          | cap =>
            match r1.dropWhile (fun c => !isQuoteChar c) with
            | _ :: r2 => some (cap, r2)
            | [] => none
        else none
      | [] => none
  else none

/-- Lazy gap `.*?` between the literal `import` and the `from` tail
(regex `/import.*?from\s+...['"`+backtick+`]/g`): the shortest gap of
non-line-terminator characters after which the tail matches. -/
def importGap : List Char → Option (List Char × List Char)
  | [] => none
  | s@(c :: rest) =>
    match importFromTail s with
    | some r => some r
    | none => if isLineTerm c then none else importGap rest

/-- Matcher for `import.*?from\s+['"](…)['"]` (plus backtick quotes),
capturing the module name. -/
def esImportTry (s : List Char) : Option (List Char × List Char) :=
  if startsWithChars "import".data s then importGap (s.drop 6) else none

/-- Matcher for `(?:from\s+(\S+)\s+import|import\s+(\S+))`, the Python
style; the first alternative is tried first, and the greedy runs are
deterministic because their delimiters are excluded from the classes.
The source pushes `match[1] || match[2]`, i.e. the capture of whichever
alternative fired. -/
def pyImportTry (s : List Char) : Option (List Char × List Char) :=
  match
    (if startsWithChars "from".data s then
      (wsPlus (s.drop 4)).bind fun r =>
        (nonWsPlus r).bind fun cr =>
          (wsPlus cr.2).bind fun r2 =>
            if startsWithChars "import".data r2 then some (cr.1, r2.drop 6) else none
    else none)
  with
  | some r => some r
  | none =>
    if startsWithChars "import".data s then (wsPlus (s.drop 6)).bind nonWsPlus
    else none

/-- Matcher for the Java style `import\s+([\w.]+);`. -/
def javaImportTry (s : List Char) : Option (List Char × List Char) :=
  if startsWithChars "import".data s then
    (wsPlus (s.drop 6)).bind fun r =>
      match r.takeWhile isWordDot with
      | [] => none
      | cap =>
        match r.dropWhile isWordDot with
        | ';' :: r2 => some (cap, r2)
        | _ => none
  else none

/-- Model of `KnowledgeExtractor.extractDependencies`: the captures of
the three import regex families in scan order, deduplicated keeping the
first occurrence (`[...new Set(dependencies)]`). -/
def extractDependencies (content : String) : List String :=
  (((jsMatchAll esImportTry content.data).map (fun l => (⟨l⟩ : String))) ++
   ((jsMatchAll pyImportTry content.data).map (fun l => (⟨l⟩ : String))) ++
   ((jsMatchAll javaImportTry content.data).map (fun l => (⟨l⟩ : String)))).eraseDups

/-- Model of `KnowledgeExtractor.extractImports` (delegates to
`extractDependencies`). -/
def extractImports (content : String) : List String := extractDependencies content

/-! ## Export extraction (`KnowledgeExtractor.extractExports`) -/

/-- The keyword alternation `(?:function\s+|class\s+|const\s+|let\s+|var\s+)?`
followed by the capture `(\w+)`, in engine backtracking order: each
keyword alternative in turn (kept only when the following `(\w+)` also
matches), then the no-keyword branch. -/
def exportTailKw : List (List Char) → List Char → Option (List Char × List Char)
  | [], s => wordPlus s
  | kw :: kws, s =>
    match kwWsTry kw s with
    | some r =>
      match wordPlus r with
      | some cr => some cr
      | none => exportTailKw kws s
    | none => exportTailKw kws s

/-- Keyword alternatives of the export regex, in source order. -/
def exportKws : List (List Char) :=
  ["function".data, "class".data, "const".data, "let".data, "var".data]

/-- Matcher for
`export\s+(?:default\s+)?(?:function\s+|class\s+|const\s+|let\s+|var\s+)?(\w+)`;
the greedy optional `default\s+` is taken first and released when the
rest fails behind it. -/
def exportTry (s : List Char) : Option (List Char × List Char) :=
  if startsWithChars "export".data s then
    (wsPlus (s.drop 6)).bind fun r =>
      match kwWsTry "default".data r with
      | some r2 =>
        match exportTailKw exportKws r2 with
        | some cr => some cr
        | none => exportTailKw exportKws r
      | none => exportTailKw exportKws r
  else none

/-- Model of `KnowledgeExtractor.extractExports` (no deduplication). -/
def extractExports (content : String) : List String :=
  (jsMatchAll exportTry content.data).map (fun l => (⟨l⟩ : String))

/-! ## Function extraction (`KnowledgeExtractor.extractFunctions`) -/

/-- Greedy `\([^)]*\)`: a parenthesised group with no inner `)`. -/
def parenTry : List Char → Option (List Char)
  | '(' :: r =>
    (match r.dropWhile (fun c => c != ')') with
     | ')' :: r2 => some r2
     | _ => none)
  | _ => none

/-- The tail `\s*=>`. -/
def arrowTail (s : List Char) : Option (List Char) :=
  match s.dropWhile isJsWs with
  | '=' :: '>' :: r => some r
  | _ => none

/-- Tail of the arrow-assignment alternative after `=\s*`:
`(?:async\s+)?(?:\([^)]*\)|\w+)\s*=>`, with the engine backtracking
order (async taken first, paren group before word group). -/
def arrowAfterEq (s : List Char) : Option (List Char) :=
  let core := fun (u : List Char) =>
    match parenTry u with
    | some v =>
      (match arrowTail v with
       | some r => some r
       | none => (wordPlus u).bind (fun wr => arrowTail wr.2))
    | none => (wordPlus u).bind (fun wr => arrowTail wr.2)
  match kwWsTry "async".data s with
  | some s2 =>
    (match core s2 with
     | some r => some r
     | none => core s)
  | none => core s

/-- Tail of the object-method alternative after `:`:
`\s*(?:async\s+)?\([^)]*\)\s*=>`. -/
def methodAfterColon (s : List Char) : Option (List Char) :=
  let s1 := s.dropWhile isJsWs
  let core := fun (u : List Char) => (parenTry u).bind arrowTail
  match kwWsTry "async".data s1 with
  | some s2 =>
    (match core s2 with
     | some r => some r
     | none => core s1)
  | none => core s1

/-- Matcher for the three-alternative function regex of
`extractFunctions`:
`function\s+(\w+)`, `(\w+)\s*=\s*(?:async\s+)?(?:\([^)]*\)|\w+)\s*=>`,
and `(\w+):\s*(?:async\s+)?\([^)]*\)\s*=>`, tried in source order, the
capture being the group of the alternative that fired.  The leading
`(\w+)` of the last two alternatives is the maximal word run at the
position: a shortened run is followed by a word character, which can
satisfy neither `\s*=` nor `:`. -/
def funcTry (s : List Char) : Option (List Char × List Char) :=
  match
    (if startsWithChars "function".data s then (wsPlus (s.drop 8)).bind wordPlus
     else none)
  with
  | some cr => some cr
  | none =>
    (wordPlus s).bind fun nr =>
      match
        (match nr.2.dropWhile isJsWs with
         | '=' :: r1 => arrowAfterEq (r1.dropWhile isJsWs)
         | _ => none)
      with
      | some rest => some (nr.1, rest)
      | none =>
        match nr.2 with
        | ':' :: r1 => (methodAfterColon r1).map (fun rest => (nr.1, rest))
        | _ => none

/-- Matcher for the Python function regex `def\s+(\w+)\s*\(`. -/
def pyDefTry (s : List Char) : Option (List Char × List Char) :=
  if startsWithChars "def".data s then
    (wsPlus (s.drop 3)).bind fun r =>
      (wordPlus r).bind fun nr =>
        match nr.2.dropWhile isJsWs with
        | '(' :: r2 => some (nr.1, r2)
        | _ => none
  else none

/-- Model of `KnowledgeExtractor.extractFunctions`: JS/TS matches first,
then Python `def` matches. -/
def extractFunctions (content : String) : List String :=
  (jsMatchAll funcTry content.data).map (fun l => (⟨l⟩ : String)) ++
  (jsMatchAll pyDefTry content.data).map (fun l => (⟨l⟩ : String))

/-- Matcher for the class regex `class\s+(\w+)`. -/
def classTry (s : List Char) : Option (List Char × List Char) :=
  if startsWithChars "class".data s then (wsPlus (s.drop 5)).bind wordPlus
  else none

/-- Model of `KnowledgeExtractor.extractClasses`: the identical
`class\s+(\w+)` scan is run twice (once labelled JS/TS, once labelled
Python) and the results concatenated. -/
def extractClasses (content : String) : List String :=
  (jsMatchAll classTry content.data).map (fun l => (⟨l⟩ : String)) ++
  (jsMatchAll classTry content.data).map (fun l => (⟨l⟩ : String))

/-! ## Summary extraction (`generateSummary` / `extractFirstComment`) -/

/-- Characters before the first `*/` occurrence; `none` when there is
no `*/`. -/
def takeUntilCloseComment : List Char → Option (List Char)
  | '*' :: '/' :: _ => some []
  | c :: rest => (takeUntilCloseComment rest).map (fun l => c :: l)
  | [] => none

/-- Match of `\*?([\s\S]*?)\*\/` immediately after a `/*`: the greedy
optional extra `*` is consumed first; when no `*/` follows it, the
engine backtracks and the consumed `*` may itself start the closing
`*/`. -/
def blockBodyAt : List Char → Option (List Char)
  | '*' :: rest =>
    (match takeUntilCloseComment rest with
     | some cap => some cap
     | none =>
       match rest with
       | '/' :: _ => some []
       | _ => none)
  | rest => takeUntilCloseComment rest

/-- Leftmost match of `\/\*\*?([\s\S]*?)\*\//` (used by
`extractFirstComment`): the first `/*` from which a closing `*/` can be
reached.  A match can only start at a `/*`, so on failure the scan may
jump past both characters. -/
def firstBlockComment : List Char → Option (List Char)
  | '/' :: '*' :: rest =>
    (match blockBodyAt rest with
     | some cap => some cap
     | none => firstBlockComment rest)
  | _ :: rest => firstBlockComment rest
  | [] => none

/-- Greedy `\s*` followed by a required `*` (the matched part of
`/\n\s*\*/g` after its `\n`): since `*` is not whitespace, this
succeeds exactly when the first non-whitespace character is `*`. -/
def dropWsThenStar : List Char → Option (List Char)
  | c :: rest =>
    if c == '*' then some rest
    else if isJsWs c then dropWsThenStar rest
    else none
  | [] => none

/-- Global replace of `/\n\s*\*/g` by `\n` (strips block-comment
continuation markers): at each `\n`, when a whitespace run followed by
`*` follows, that run and the `*` are dropped (the skip distance is
carried as a count to keep the recursion structural) and scanning
resumes after the match. -/
def stripContinuations : List Char → Nat → List Char
  | [], _ => []
  | c :: rest, 0 =>
    if c == '\n' then
      match dropWsThenStar rest with
      | some r => '\n' :: stripContinuations rest (rest.length - r.length)
      | none => '\n' :: stripContinuations rest 0
    else c :: stripContinuations rest 0
  | _ :: rest, k + 1 => stripContinuations rest k

/-- Single-line comment collection at the top of the file (the fallback
loop of `extractFirstComment`): `//`-lines and `#`-lines are collected
trimmed, blank lines are skipped, and the first other non-blank line
stops the loop. -/
def topLineComments : List (List Char) → List (List Char)
  | [] => []
  | line :: rest =>
    let t := jsTrim line
    if startsWithChars "//".data t then jsTrim (t.drop 2) :: topLineComments rest
    else if startsWithChars "#".data t then jsTrim (t.drop 1) :: topLineComments rest
    else if t.isEmpty then topLineComments rest
    else []

/-- Model of `KnowledgeExtractor.extractFirstComment`: the first block
comment (continuation markers stripped, trimmed) when one exists, else
the collected top-of-file line comments joined by spaces, else null. -/
def extractFirstComment (content : String) : Option String :=
  match firstBlockComment content.data with
  | some cap => some ⟨jsTrim (stripContinuations cap 0)⟩
  | none =>
    let cls := topLineComments (splitLines content.data)
    if cls.isEmpty then none else some ⟨List.intercalate " ".data cls⟩

/-- Model of `KnowledgeExtractor.generateSummary`: the first comment
when present and non-empty (JS truthiness of the string), else the
first three non-blank lines joined by a space and truncated to 200
characters. -/
def generateSummary (content : String) : String :=
  let fallbackLines := (splitLines content.data).filter (fun l => !(jsTrim l).isEmpty)
  let fallback : List Char := (List.intercalate " ".data (fallbackLines.take 3)).take 200
  match extractFirstComment content with
  | some c => if c.data.isEmpty then ⟨fallback⟩ else c
  | none => ⟨fallback⟩

/-! ## Framework detection (`KnowledgeExtractor.detectFramework`) -/

/-- The framework signature table, in source priority order. -/
def frameworkTable : List (String × List String) :=
  [("React", ["import.*react", "from.*react", "useState", "useEffect"]),
   ("Vue", ["import.*vue", "from.*vue", "createApp", "defineComponent"]),
   ("Angular", ["@angular", "@Component", "@Injectable"]),
   ("Express", ["express", "app.get", "app.post", "router"]),
   ("Next.js", ["next/", "getServerSideProps", "getStaticProps"]),
   ("Django", ["django", "models.Model", "views."]),
   ("Flask", ["flask", "app.route", "@app.route"]),
   ("Spring", ["@SpringBootApplication", "@RestController", "@Service"])]

/-- Model of `KnowledgeExtractor.detectFramework`: the first framework
in table order with a matching signature (`new RegExp(pattern, 'i')`,
so matching is case-insensitive and an unescaped `.` matches any
non-line-terminator character). -/
def detectFramework (content : String) : Option String :=
  (frameworkTable.find? (fun fw =>
    fw.2.any (fun p => matchFrom true (parseRegex p.data) content.data))).map (fun fw => fw.1)

/-! ## Path helpers (Node `path.basename` / `path.extname`) -/

/-- Model of Node `path.basename` (posix): the last path segment,
ignoring trailing separators. -/
def nodeBasename (p : String) : String :=
  let r := p.data.reverse.dropWhile (fun c => c == '/')
  ⟨(r.takeWhile (fun c => c != '/')).reverse⟩

/-- Model of Node `path.extname` (posix): from the last `.` of the
basename to the end; empty when the basename has no `.` or only a
leading one. -/
def nodeExtname (p : String) : String :=
  let base := (nodeBasename p).data
  let revAfter := base.reverse.takeWhile (fun c => c != '.')
  if revAfter.length == base.length then ""
  else if base.length - revAfter.length - 1 == 0 then ""
  else ⟨'.' :: revAfter.reverse⟩

/-! ## File type, analysis record, builder -/

/-- The extension-to-type table of `getFileType`. -/
def typeMap : List (String × String) :=
  [(".js", "javascript"), (".jsx", "javascript"), (".ts", "typescript"),
   (".tsx", "typescript"), (".py", "python"), (".java", "java"),
   (".go", "go"), (".rs", "rust"), (".cpp", "cpp"), (".c", "c"),
   (".php", "php"), (".rb", "ruby"), (".swift", "swift"), (".kt", "kotlin"),
   (".md", "markdown"), (".yaml", "yaml"), (".yml", "yaml"),
   (".json", "json"), (".sql", "sql"), (".sh", "shell")]

/-- Lowercase a string character by character (JS `toLowerCase`, ASCII
range suffices for extensions). -/
def lowerStr (s : String) : String := ⟨s.data.map Char.toLower⟩

/-- Model of `KnowledgeExtractor.getFileType`: table lookup on the
lowercased extension, `"unknown"` as default. -/
def getFileType (filePath : String) : String :=
  (typeMap.lookup (lowerStr (nodeExtname filePath))).getD "unknown"

/-- Model of `KnowledgeExtractor.getLanguage` (identity on the file
type). -/
def getLanguage (fileType : String) : String := fileType

/-- The analysis record built by `analyzeContent`. -/
structure ContentAnalysis where
  language : String
  framework : Option String
  dependencies : List String
  imports : List String
  exports : List String
  functions : List String
  classes : List String
  mainFunction : Option String
  mainClass : Option String
  summary : String
  complexity : Nat
  deriving Repr, DecidableEq

/-- Model of `KnowledgeExtractor.analyzeContent`: every field from its
extraction function, main function/class the first entry of the
respective list when non-empty. -/
def analyzeContent (content : String) (fileType : String) : ContentAnalysis :=
  let functions := extractFunctions content
  let classes := extractClasses content
  { language := getLanguage fileType
    framework := detectFramework content
    dependencies := extractDependencies content
    imports := extractImports content
    exports := extractExports content
    functions := functions
    classes := classes
    mainFunction := functions.head?
    mainClass := classes.head?
    summary := generateSummary content
    complexity := calculateComplexity content }

/-- JS truthiness of an optional string (`undefined` and the empty
string are falsy). -/
def strTruthy : Option String → Bool
  | some s => !s.data.isEmpty
  | none => false

/-- Model of `KnowledgeExtractor.generateTitle`: basename, augmented by
the main function, else main class, else the first two exports. -/
def generateTitle (filePath : String) (analysis : ContentAnalysis) : String :=
  let fileName := nodeBasename filePath
  if strTruthy analysis.mainFunction then
    fileName ++ " - " ++ analysis.mainFunction.getD ""
  else if strTruthy analysis.mainClass then
    fileName ++ " - " ++ analysis.mainClass.getD ""
  else if analysis.exports.length > 0 then
    fileName ++ " - " ++ ⟨List.intercalate ", ".data ((analysis.exports.take 2).map String.data)⟩
  else fileName

/-- Replacement of every character outside `[a-zA-Z0-9]` by `_`
(the sanitizing in `generateId`). -/
def sanitizeId (l : List Char) : List Char :=
  l.map (fun c => if isAlnum c then c else '_')

/-- Model of `KnowledgeExtractor.generateId`: sanitized repository and
path joined by `_`. -/
def generateId (repository filePath : String) : String :=
  ⟨sanitizeId repository.data ++ '_' :: sanitizeId filePath.data⟩

/-- Model of `KnowledgeExtractor.generateTags`: path substring tags,
language/framework tags, content tags, dependency tags, pushed in
source order and deduplicated keeping first occurrences. -/
def generateTags (filePath : String) (analysis : ContentAnalysis) : List String :=
  let inc := fun (sub : String) => strIncludes sub.data filePath.data
  let pathTags :=
    (if inc "test" then ["test"] else []) ++
    (if inc "api" then ["api"] else []) ++
    (if inc "component" then ["component"] else []) ++
    (if inc "util" then ["utility"] else []) ++
    (if inc "config" then ["configuration"] else []) ++
    (if inc "service" then ["service"] else []) ++
    (if inc "model" then ["model"] else []) ++
    (if inc "controller" then ["controller"] else [])
  let langTags :=
    (if !analysis.language.data.isEmpty then [analysis.language] else []) ++
    (if strTruthy analysis.framework then [analysis.framework.getD ""] else [])
  let contentTags :=
    (if analysis.functions.length > 0 then ["functions"] else []) ++
    (if analysis.classes.length > 0 then ["classes"] else []) ++
    (if analysis.complexity > 10 then ["complex"] else []) ++
    (if analysis.complexity ≤ 3 then ["simple"] else [])
  let depTags := analysis.dependencies.flatMap (fun dep =>
    (if strIncludes "react".data dep.data then ["react"] else []) ++
    (if strIncludes "express".data dep.data then ["express"] else []) ++
    (if strIncludes "typescript".data dep.data then ["typescript"] else []))
  (pathTags ++ langTags ++ contentTags ++ depTags).eraseDups

/-- Model of `KnowledgeExtractor.prepareContent`: the fixed template
(note the final `.trim()`, the template literal opens with a newline
and closes with a newline plus four spaces of indentation). -/
def prepareContent (content : String) (analysis : ContentAnalysis) (filePath : String) :
    String :=
  jsTrimStr
    ("\nFile: " ++ filePath ++
     "\nLanguage: " ++ analysis.language ++
     "\nFramework: " ++
       (if strTruthy analysis.framework then analysis.framework.getD "" else "None") ++
     "\n\nSummary: " ++ analysis.summary ++
     "\n\nDependencies:\n" ++
     ⟨List.intercalate "\n".data ((analysis.dependencies.map (fun dep => "- " ++ dep)).map String.data)⟩ ++
     "\n\nFunctions: " ++ ⟨List.intercalate ", ".data (analysis.functions.map String.data)⟩ ++
     "\nClasses: " ++ ⟨List.intercalate ", ".data (analysis.classes.map String.data)⟩ ++
     "\nComplexity: " ++ toString analysis.complexity ++
     "\n\nContent:\n" ++ content ++ "\n    ")

/-- Structure `FileInfo` (the `lastModified` Date is modelled as a
timestamp). -/
structure FileInfo where
  repository : String
  filePath : String
  content : String
  lastModified : Nat
  deriving Repr, DecidableEq

/-- The metadata record of a `KnowledgeItem`; `language`, `framework`
and `dependencies` are optional in the source interface. -/
structure KnowledgeMetadata where
  repository : String
  filePath : String
  fileType : String
  lastModified : Nat
  contentHash : String
  tags : List String
  language : Option String
  framework : Option String
  dependencies : Option (List String)
  deriving Repr, DecidableEq

/-- Structure `KnowledgeItem` of the RAG engine. -/
structure KnowledgeItem where
  id : String
  title : String
  content : String
  metadata : KnowledgeMetadata
  deriving Repr, DecidableEq

/-- Model of `KnowledgeExtractor.extractKnowledge`.  The MD5 digest of
the external crypto library is abstracted as the `hashFn` parameter and
the extractor configuration as the `config` parameter (the deployed
class always uses `defaultConfig`, installed by its constructor). -/
def extractKnowledge (hashFn : String → String) (config : ExtractionConfig)
    (fileInfo : FileInfo) : Option KnowledgeItem :=
  if !shouldProcessFile config fileInfo.filePath then none
  else
    let contentHash := hashFn fileInfo.content
    let fileType := getFileType fileInfo.filePath
    let analysis := analyzeContent fileInfo.content fileType
    some
      { id := generateId fileInfo.repository fileInfo.filePath
        title := generateTitle fileInfo.filePath analysis
        content := prepareContent fileInfo.content analysis fileInfo.filePath
        metadata :=
          { repository := fileInfo.repository
            filePath := fileInfo.filePath
            fileType := fileType
            lastModified := fileInfo.lastModified
            contentHash := contentHash
            tags := generateTags fileInfo.filePath analysis
            language := some analysis.language
            framework := analysis.framework
            dependencies := some analysis.dependencies } }

/-- Single-quote character (kept out of string literals). -/
def sq : Char := Char.ofNat 39

/-- Executable test that `suf` is a suffix of `l` (JS `endsWith`). -/
def strEndsWith (suf l : List Char) : Bool :=
  startsWithChars suf.reverse l.reverse

/-- The last line of a line list (total, empty input giving the empty
line). -/
def lastLine : List (List Char) → List Char
  | [] => []
  | [l] => l
  | _ :: b :: t => lastLine (b :: t)

/-- The counterexample content for the chunk-count claim: three lines
of 400, 400 and 199 characters; 1001 characters in total, yet the line
loop accumulates all of it into one chunk because its size check
ignores the separating newlines. -/
def c4Content : String :=
  ⟨List.replicate 400 'a' ++ '\n' :: (List.replicate 400 'a' ++ '\n' :: List.replicate 199 'a')⟩

/-! ## Sanity checks of the embedding on concrete inputs (scenario A of
the specification, scenario B paths, and assorted smaller cases). -/

example : matchesPattern "node_modules/foo/bar.js" "**/node_modules/**" = false := by decide
example : matchesPattern "src/node_modules/foo/bar.js" "**/node_modules/**" = true := by decide
example : matchesPattern "node_modules/foo/bar.js" "**/*.js" = true := by decide
example : shouldProcessFile defaultConfig "src/node_modules/foo/bar.js" = false := by decide
example : shouldProcessFile defaultConfig "src/a.js" = true := by decide
example : splitContent "" = [""] := by decide
example : splitContent "a\nb" = ["a\nb"] := by decide
example :
    splitContent ⟨List.replicate 600 'a' ++ '\n' :: List.replicate 600 'b'⟩ =
      [⟨List.replicate 600 'a'⟩, ⟨List.replicate 600 'b'⟩] := by decide

example :
    generateSummary "// Handles user login\nfunction login(user) { if (user) { return true; } }" =
      "Handles user login" := by decide
example :
    extractFunctions "// Handles user login\nfunction login(user) { if (user) { return true; } }" =
      ["login"] := by decide
example :
    calculateComplexity "// Handles user login\nfunction login(user) { if (user) { return true; } }" =
      1 := by decide
example : extractClasses "class A extends B" = ["A", "A"] := by decide
example :
    extractDependencies ⟨"import x from ".data ++ sq :: 'y' :: [sq]⟩ = ["y", "x"] := by decide
example : extractExports "export default function foo() {}" = ["foo"] := by decide
example : extractExports "export default;" = ["default"] := by decide
example : extractFunctions "const add = (a, b) => a + b;" = ["add"] := by decide
example : extractFunctions "def foo(x):" = ["foo"] := by decide
example : nodeBasename "/a/b/c.ts" = "c.ts" := by decide
example : nodeExtname "index.html" = ".html" := by decide
example : nodeExtname ".index" = "" := by decide
example : nodeExtname "index." = "." := by decide
example : getFileType "src/a.JS" = "javascript" := by decide
example : getFileType "src/a.txt" = "unknown" := by decide
example : detectFramework "useState" = some "React" := by decide
example : detectFramework "nothing here" = none := by decide
example : generateId "a.b" "c" = "a_b_c" := by decide
example : generateSummary "/* hi */" = "hi" := by decide
example : generateSummary "x\ny\nz\nw" = "x y z" := by decide
example :
    generateTags "src/test/api.js"
      (analyzeContent "if (a && b) { }" "javascript") =
      ["test", "api", "javascript", "simple"] := by decide
example :
    (extractKnowledge (fun _ => "h") defaultConfig
      ⟨"repo", "src/a.js", "// hi", 0⟩).isSome = true := by decide

/-! ## Generic list lemmas -/

lemma dropWhile_length_le (p : Char → Bool) (l : List Char) :
    (l.dropWhile p).length ≤ l.length :=
  (List.dropWhile_suffix p).length_le

lemma startsWithChars_eq_append (p : List Char) :
    ∀ l, startsWithChars p l = true → l = p ++ l.drop p.length := by
  induction p with
  | nil => intro l _; simp
  | cons a ps ih =>
    intro l h
    cases l with
    | nil => simp [startsWithChars] at h
    | cons b ls =>
      simp only [startsWithChars, Bool.and_eq_true, beq_iff_eq] at h
      obtain ⟨h1, h2⟩ := h
      subst h1
      simpa using ih ls h2

lemma startsWithChars_length (p l : List Char) (h : startsWithChars p l = true) :
    p.length ≤ l.length := by
  have h2 := congrArg List.length (startsWithChars_eq_append p l h)
  simp only [List.length_append] at h2
  omega

lemma startsWithChars_append (p : List Char) :
    ∀ l t, startsWithChars p l = true → startsWithChars p (l ++ t) = true := by
  induction p with
  | nil => intro l t _; simp [startsWithChars]
  | cons a ps ih =>
    intro l t h
    cases l with
    | nil => simp [startsWithChars] at h
    | cons b ls =>
      simp only [startsWithChars, Bool.and_eq_true, beq_iff_eq] at h ⊢
      exact ⟨h.1, ih ls t h.2⟩

lemma startsWithChars_short_mem (p : List Char) :
    ∀ l t, startsWithChars p (l ++ t) = true → startsWithChars p l = false →
      ∀ c ∈ l, c ∈ p := by
  induction p with
  | nil => intro l t h1 h2; simp [startsWithChars] at h2
  | cons a ps ih =>
    intro l t h1 h2
    cases l with
    | nil => intro c hc; simp at hc
    | cons b ls =>
      simp only [List.cons_append, startsWithChars, Bool.and_eq_true, beq_iff_eq] at h1
      obtain ⟨hab, h1'⟩ := h1
      subst hab
      simp only [startsWithChars, beq_self_eq_true, Bool.true_and] at h2
      intro c hc
      rcases List.mem_cons.mp hc with rfl | hc'
      · exact List.mem_cons_self _ _
      · exact List.mem_cons_of_mem _ (ih ls t h1' h2 c hc')

lemma dropWhile_fix_head (p : Char → Bool) (d : Char) (ds : List Char)
    (h : (d :: ds).dropWhile p = d :: ds) : p d = false := by
  by_contra hcon
  have hd : p d = true := by revert hcon; cases p d <;> simp
  rw [List.dropWhile_cons_of_pos hd] at h
  have hlen := congrArg List.length h
  have hle := dropWhile_length_le p ds
  simp at hlen
  omega

lemma jsTrimRight_append_ws (x w : List Char) (hw : ∀ c ∈ w, isJsWs c = true) :
    jsTrimRight (x ++ w) = jsTrimRight x := by
  unfold jsTrimRight
  rw [List.reverse_append, List.dropWhile_append]
  have hnil : w.reverse.dropWhile isJsWs = [] :=
    List.dropWhile_eq_nil_iff.mpr (fun c hc => hw c (List.mem_reverse.mp hc))
  simp [hnil]

lemma jsTrimRight_append_keep (x c : List Char) (hne : c ≠ [])
    (hfix : jsTrimRight c = c) : jsTrimRight (x ++ c) = x ++ c := by
  have hfix2 : c.reverse.dropWhile isJsWs = c.reverse := by
    have h := congrArg List.reverse hfix
    simpa [jsTrimRight] using h
  have hrevne : c.reverse ≠ [] := by simpa using hne
  unfold jsTrimRight
  rw [List.reverse_append, List.dropWhile_append, hfix2]
  have hEmpty : c.reverse.isEmpty = false := by
    cases hc : c.reverse with
    | nil => exact absurd hc hrevne
    | cons d ds => rfl
  rw [hEmpty]
  simp [List.reverse_append]

lemma jsTrimRight_eq_nil_iff (l : List Char) :
    jsTrimRight l = [] ↔ ∀ c ∈ l, isJsWs c = true := by
  unfold jsTrimRight
  constructor
  · intro h c hc
    have hnil : l.reverse.dropWhile isJsWs = [] := by
      have := congrArg List.reverse h
      simpa using this
    exact List.dropWhile_eq_nil_iff.mp hnil c (List.mem_reverse.mpr hc)
  · intro h
    have hnil : l.reverse.dropWhile isJsWs = [] :=
      List.dropWhile_eq_nil_iff.mpr (fun c hc => h c (List.mem_reverse.mp hc))
    simp [hnil]

lemma jsTrim_eq_nil_iff (l : List Char) :
    jsTrim l = [] ↔ ∀ c ∈ l, isJsWs c = true := by
  unfold jsTrim jsTrimLeft
  constructor
  · intro h c hc
    have hl : l = jsTrimRight l ++ (l.reverse.takeWhile isJsWs).reverse := by
      have hsplit := l.reverse.takeWhile_append_dropWhile isJsWs
      calc l = l.reverse.reverse := (l.reverse_reverse).symm
        _ = (l.reverse.takeWhile isJsWs ++ l.reverse.dropWhile isJsWs).reverse := by
              rw [hsplit]
        _ = (l.reverse.dropWhile isJsWs).reverse ++ (l.reverse.takeWhile isJsWs).reverse := by
              rw [List.reverse_append]
    rw [hl] at hc
    rcases List.mem_append.mp hc with hc1 | hc1
    · exact List.dropWhile_eq_nil_iff.mp h c hc1
    · exact List.mem_takeWhile_imp (List.mem_reverse.mp hc1)
  · intro h
    have h1 : jsTrimRight l = [] := (jsTrimRight_eq_nil_iff l).mpr h
    simp [h1]

lemma jsTrim_ne_nil_of_mem (l : List Char) (c : Char) (hc : c ∈ l)
    (hw : isJsWs c = false) : jsTrim l ≠ [] := by
  intro h
  have := (jsTrim_eq_nil_iff l).mp h c hc
  rw [hw] at this
  exact Bool.false_ne_true this

/-! ## Claim C1 -/

/-- Claim C1 (Scenario B of the specification) is refuted by the code:
for the path `node_modules/foo/bar.js` the default exclude pattern
`**/node_modules/**` does not match — its translation
`.[^/]*/node_modules/.[^/]*` demands a character before
`/node_modules/`, which a path beginning with `node_modules/` lacks —
while the include pattern `**/*.js` does match, so `shouldProcessFile`
returns `true` instead of the claimed `false`. -/
theorem claim_C1_eval :
    shouldProcessFile defaultConfig "node_modules/foo/bar.js" = true ∧
    matchesPattern "node_modules/foo/bar.js" "**/node_modules/**" = false :=
  ⟨by decide, by decide⟩

/-! ## Claim C5 -/

/-- Claim C5: a path matched by any exclude pattern is rejected
regardless of the include patterns (the exclusion loop runs first and
short-circuits), and a path matching no pattern of either list is
rejected (default deny). -/
theorem claim_C5 (config : ExtractionConfig) (p : String) :
    ((∃ pat ∈ config.excludePatterns, matchesPattern p pat = true) →
      shouldProcessFile config p = false) ∧
    ((∀ pat, (pat ∈ config.excludePatterns ∨ pat ∈ config.includePatterns) →
        matchesPattern p pat = false) →
      shouldProcessFile config p = false) := by
  constructor
  · rintro ⟨pat, hmem, hmat⟩
    have hE : config.excludePatterns.any (fun pattern => matchesPattern p pattern) = true :=
      List.any_eq_true.mpr ⟨pat, hmem, hmat⟩
    simp [shouldProcessFile, hE]
  · intro h
    have hE : config.excludePatterns.any (fun pattern => matchesPattern p pattern) = false :=
      List.any_eq_false.mpr (fun pat hp => by simp [h pat (Or.inl hp)])
    have hI : config.includePatterns.any (fun pattern => matchesPattern p pattern) = false :=
      List.any_eq_false.mpr (fun pat hp => by simp [h pat (Or.inr hp)])
    simp [shouldProcessFile, hE, hI]

/-- Witness for C5 at a concrete excluded path. -/
theorem claim_C5_witness :
    shouldProcessFile defaultConfig "src/node_modules/a.js" = false :=
  (claim_C5 defaultConfig "src/node_modules/a.js").1
    ⟨"**/node_modules/**", by decide, by decide⟩

/-! ## Claim C6 -/

/-- Claim C6: the chunker never returns an empty sequence; when the
line accumulation yields no chunks, the original content is returned as
the single chunk, unchanged. -/
theorem claim_C6 (content : String) :
    splitContent content ≠ [] ∧
    (chunksOf content.data = [] → splitContent content = [content]) := by
  constructor
  · cases h : chunksOf content.data with
    | nil => simp [splitContent, h]
    | cons a l => simp [splitContent, h]
  · intro h
    simp [splitContent, h]

/-- Witness for C6 at empty content, where the accumulation produces
no chunks. -/
theorem claim_C6_witness :
    splitContent "" ≠ [] ∧ splitContent "" = [""] :=
  ⟨(claim_C6 "").1, (claim_C6 "").2 (by decide)⟩

/-! ## Claim C9 -/

/-- Claim C9: `extractClasses` is the concatenation of two identical
scans of `class\s+(\w+)`: the result has even length, its second half
equals its first half, and every returned name occurs at least twice. -/
theorem claim_C9 (content : String) :
    (extractClasses content).length % 2 = 0 ∧
    (extractClasses content).take ((extractClasses content).length / 2) =
      (extractClasses content).drop ((extractClasses content).length / 2) ∧
    (∀ x ∈ extractClasses content, 2 ≤ (extractClasses content).count x) := by
  obtain ⟨L, hLdef⟩ : ∃ L, extractClasses content = L ++ L := ⟨_, rfl⟩
  rw [hLdef]
  have hhalf : (L ++ L).length / 2 = L.length := by
    simp only [List.length_append]
    omega
  refine ⟨?_, ?_, ?_⟩
  · simp only [List.length_append]
    omega
  · rw [hhalf, List.take_left, List.drop_left]
  · intro x hx
    have hxL : x ∈ L := by
      rcases List.mem_append.mp hx with h1 | h1 <;> exact h1
    have hpos : 0 < L.count x := List.count_pos_iff.mpr hxL
    rw [List.count_append]
    omega

/-- Witness for C9 on a concrete class declaration. -/
theorem claim_C9_witness :
    (extractClasses "class A").length % 2 = 0 ∧
      2 ≤ (extractClasses "class A").count "A" :=
  ⟨(claim_C9 "class A").1, (claim_C9 "class A").2.2 "A" (by decide)⟩

/-! ## Claim C10 -/

/-- Claim C10: `generateId` is not injective — the pairs ("a.b", "c")
and ("a", "b.c") are distinct yet share the id "a_b_c", so update-by-id
can conflate distinct files. -/
theorem claim_C10 :
    ∃ r1 p1 r2 p2 : String,
      (r1, p1) ≠ (r2, p2) ∧ generateId r1 p1 = generateId r2 p2 :=
  ⟨"a.b", "c", "a", "b.c", by decide, by decide⟩

/-! ## Claim C3 -/

/-- Claim C3 counterexample: a 201-character block comment is returned
as the summary untruncated, so the 200-character bound fails. -/
theorem claim_C3_counterexample :
    200 < (generateSummary ⟨"/*".data ++ (List.replicate 201 'a' ++ "*/".data)⟩).length := by
  decide

/-- Claim C3 amended: the 200-character bound holds exactly on the
fallback path, i.e. whenever `extractFirstComment` finds no comment; a
found first comment is returned untruncated and can exceed 200
characters. -/
theorem claim_C3_amended (content : String)
    (h : extractFirstComment content = none) :
    (generateSummary content).length ≤ 200 := by
  have hrw : generateSummary content =
      ⟨(List.intercalate " ".data
        (((splitLines content.data).filter (fun l => !(jsTrim l).isEmpty)).take 3)).take 200⟩ := by
    simp only [generateSummary, h]
  rw [hrw]
  show ((List.intercalate " ".data
      (((splitLines content.data).filter (fun l => !(jsTrim l).isEmpty)).take 3)).take 200).length ≤ 200
  rw [List.length_take]
  omega

/-- Witness for the amended C3 on comment-free content. -/
theorem claim_C3_amended_witness :
    extractFirstComment "x\ny\nz" = none ∧ (generateSummary "x\ny\nz").length ≤ 200 :=
  ⟨by decide, claim_C3_amended "x\ny\nz" (by decide)⟩

/-! ## Claim C2 -/

/-- Inversion of `extractKnowledge`: a produced item is exactly the
record built from the file and its analysis. -/
lemma extractKnowledge_some_eq (hashFn : String → String) (config : ExtractionConfig)
    (f : FileInfo) (item : KnowledgeItem)
    (h : extractKnowledge hashFn config f = some item) :
    shouldProcessFile config f.filePath = true ∧
    item =
      { id := generateId f.repository f.filePath
        title := generateTitle f.filePath (analyzeContent f.content (getFileType f.filePath))
        content :=
          prepareContent f.content (analyzeContent f.content (getFileType f.filePath)) f.filePath
        metadata :=
          { repository := f.repository
            filePath := f.filePath
            fileType := getFileType f.filePath
            lastModified := f.lastModified
            contentHash := hashFn f.content
            tags := generateTags f.filePath (analyzeContent f.content (getFileType f.filePath))
            language := some (analyzeContent f.content (getFileType f.filePath)).language
            framework := (analyzeContent f.content (getFileType f.filePath)).framework
            dependencies :=
              some (analyzeContent f.content (getFileType f.filePath)).dependencies } } := by
  cases hsp : shouldProcessFile config f.filePath with
  | false =>
    unfold extractKnowledge at h
    rw [hsp] at h
    simp at h
  | true =>
    unfold extractKnowledge at h
    rw [hsp] at h
    simp at h
    exact ⟨rfl, h.symm⟩

/-- Claim C2: extraction yields null exactly when the path is
ineligible, and for every eligible file — the model being total by
construction, mirroring that the source never throws on any content
string — it returns an item whose id, title, content and every
metadata field are populated from the file and its analysis. -/
theorem claim_C2 (hashFn : String → String) (config : ExtractionConfig) (f : FileInfo) :
    (extractKnowledge hashFn config f = none ↔
      shouldProcessFile config f.filePath = false) ∧
    (∀ item, extractKnowledge hashFn config f = some item →
      item.id = generateId f.repository f.filePath ∧
      item.title = generateTitle f.filePath (analyzeContent f.content (getFileType f.filePath)) ∧
      item.content =
        prepareContent f.content (analyzeContent f.content (getFileType f.filePath)) f.filePath ∧
      item.metadata.repository = f.repository ∧
      item.metadata.filePath = f.filePath ∧
      item.metadata.fileType = getFileType f.filePath ∧
      item.metadata.lastModified = f.lastModified ∧
      item.metadata.contentHash = hashFn f.content ∧
      item.metadata.tags =
        generateTags f.filePath (analyzeContent f.content (getFileType f.filePath)) ∧
      item.metadata.language =
        some (analyzeContent f.content (getFileType f.filePath)).language ∧
      item.metadata.framework =
        (analyzeContent f.content (getFileType f.filePath)).framework ∧
      item.metadata.dependencies =
        some (analyzeContent f.content (getFileType f.filePath)).dependencies) := by
  constructor
  · cases hsp : shouldProcessFile config f.filePath with
    | false => simp [extractKnowledge, hsp]
    | true => simp [extractKnowledge, hsp]
  · intro item h
    obtain ⟨hsp, hitem⟩ := extractKnowledge_some_eq hashFn config f item h
    subst hitem
    exact ⟨rfl, rfl, rfl, rfl, rfl, rfl, rfl, rfl, rfl, rfl, rfl, rfl⟩

/-- Witness for C2 at a concrete eligible file: the equivalence applies
and the eligibility check evaluates to true. -/
theorem claim_C2_witness :
    (extractKnowledge (fun _ => "h") defaultConfig ⟨"repo", "src/a.js", "// hi", 0⟩ = none ↔
      shouldProcessFile defaultConfig "src/a.js" = false) ∧
    shouldProcessFile defaultConfig "src/a.js" = true :=
  ⟨(claim_C2 (fun _ => "h") defaultConfig ⟨"repo", "src/a.js", "// hi", 0⟩).1, by decide⟩

/-! ## Claim C7 -/

lemma startsWithChars_self_append (p : List Char) :
    ∀ t, startsWithChars p (p ++ t) = true := by
  induction p with
  | nil => intro t; rfl
  | cons a ps ih => intro t; simp [startsWithChars, ih]

lemma strEndsWith_iff (suf l : List Char) :
    strEndsWith suf l = true ↔ ∃ pre, l = pre ++ suf := by
  unfold strEndsWith
  constructor
  · intro h
    have heq := startsWithChars_eq_append suf.reverse l.reverse h
    refine ⟨(l.reverse.drop suf.reverse.length).reverse, ?_⟩
    calc l = l.reverse.reverse := l.reverse_reverse.symm
      _ = (suf.reverse ++ l.reverse.drop suf.reverse.length).reverse := by rw [← heq]
      _ = (l.reverse.drop suf.reverse.length).reverse ++ suf := by
            rw [List.reverse_append, List.reverse_reverse]
  · rintro ⟨pre, rfl⟩
    rw [List.reverse_append]
    exact startsWithChars_self_append suf.reverse pre.reverse

lemma jsTrim_template_ends (a c w : List Char)
    (hw : ∀ ch ∈ w, isJsWs ch = true) (htrail : jsTrimRight c = c) :
    ∃ pre, jsTrim ('\n' :: 'F' :: (a ++ (c ++ w))) = pre ++ c := by
  by_cases hc : c = []
  · subst hc
    exact ⟨jsTrim ('\n' :: 'F' :: (a ++ ([] ++ w))), by simp⟩
  · have h1 : jsTrimRight ('\n' :: 'F' :: (a ++ (c ++ w))) = '\n' :: 'F' :: (a ++ c) := by
      have e1 : '\n' :: 'F' :: (a ++ (c ++ w)) = (('\n' :: 'F' :: a) ++ c) ++ w := by simp
      rw [e1, jsTrimRight_append_ws _ _ hw, jsTrimRight_append_keep _ c hc htrail]
      simp
    refine ⟨'F' :: a, ?_⟩
    unfold jsTrim
    rw [h1]
    unfold jsTrimLeft
    rw [List.dropWhile_cons_of_pos (by decide), List.dropWhile_cons_of_neg (by decide)]
    simp

lemma prepareContent_ends (content : String) (analysis : ContentAnalysis) (filePath : String)
    (htrail : jsTrimRight content.data = content.data) :
    ∃ pre, (prepareContent content analysis filePath).data = pre ++ content.data := by
  have hlit : ("\nFile: " : String).data = '\n' :: 'F' :: ("ile: " : String).data := rfl
  have hdata : (prepareContent content analysis filePath).data =
      jsTrim ('\n' :: 'F' ::
        (("ile: ".data ++ (filePath.data ++
          ("\nLanguage: ".data ++ (analysis.language.data ++
          ("\nFramework: ".data ++
            ((if strTruthy analysis.framework then analysis.framework.getD "" else "None").data ++
          ("\n\nSummary: ".data ++ (analysis.summary.data ++
          ("\n\nDependencies:\n".data ++
            ((List.intercalate "\n".data
              ((analysis.dependencies.map (fun dep => "- " ++ dep)).map String.data)) ++
          ("\n\nFunctions: ".data ++
            ((List.intercalate ", ".data (analysis.functions.map String.data)) ++
          ("\nClasses: ".data ++
            ((List.intercalate ", ".data (analysis.classes.map String.data)) ++
          ("\nComplexity: ".data ++ ((toString analysis.complexity).data ++
          "\n\nContent:\n".data)))))))))))))))) ++
         (content.data ++ "\n    ".data))) := by
    simp [prepareContent, jsTrimStr, hlit, String.data_append, List.append_assoc]
  rw [hdata]
  exact jsTrim_template_ends _ content.data "\n    ".data (by decide) htrail

/-- Claim C7 counterexample: content ending in a space is not embedded
verbatim at the end of the produced item content — the final `.trim()`
of the template removes the trailing whitespace. -/
theorem claim_C7_counterexample :
    (extractKnowledge (fun _ => "h") defaultConfig ⟨"repo", "src/a.js", "x ", 0⟩).map
      (fun item => strEndsWith "x ".data item.content.data) = some false := by decide

/-- Claim C7 amended: for every eligible file whose content does not
end in whitespace (is fixed by a right trim), the item content embeds
the original content verbatim at the end; a trailing whitespace run of
the content is removed by the template trim, so the general claim
fails exactly there. -/
theorem claim_C7_amended (hashFn : String → String) (config : ExtractionConfig)
    (f : FileInfo) (item : KnowledgeItem)
    (hsome : extractKnowledge hashFn config f = some item)
    (htrail : jsTrimRight f.content.data = f.content.data) :
    ∃ pre, item.content.data = pre ++ f.content.data := by
  obtain ⟨hsp, hitem⟩ := extractKnowledge_some_eq hashFn config f item hsome
  subst hitem
  exact prepareContent_ends f.content _ f.filePath htrail

/-- Witness for the amended C7 at a concrete file without trailing
whitespace. -/
theorem claim_C7_witness :
    ∃ item,
      extractKnowledge (fun _ => "h") defaultConfig ⟨"repo", "src/a.js", "x", 0⟩ = some item ∧
      ∃ pre, item.content.data = pre ++ "x".data := by
  cases hEq : extractKnowledge (fun _ => "h") defaultConfig ⟨"repo", "src/a.js", "x", 0⟩ with
  | none => exact absurd hEq (by decide)
  | some item =>
    exact ⟨item, rfl, claim_C7_amended _ _ _ _ hEq (by decide)⟩

/-! ## Claim C4 -/

lemma splitLines_shape (l : List Char) : ∃ a t, splitLines l = a :: t := by
  induction l with
  | nil => exact ⟨[], [], rfl⟩
  | cons c rest ih =>
    by_cases hc : c = '\n'
    · subst hc
      exact ⟨[], splitLines rest, by simp [splitLines]⟩
    · obtain ⟨a, t, hat⟩ := ih
      refine ⟨c :: a, t, ?_⟩
      simp only [splitLines, if_neg hc, hat]

lemma splitLines_ne_nil (l : List Char) : splitLines l ≠ [] := by
  obtain ⟨a, t, hat⟩ := splitLines_shape l
  rw [hat]
  simp

lemma chunkStep_split (chunks : List (List Char)) (cur line : List Char)
    (h1 : maxChunkSize < cur.length + line.length) (h2 : 0 < cur.length) :
    chunkStep (chunks, cur) line = (chunks ++ [jsTrim cur], line) := by
  unfold chunkStep
  rw [if_pos ⟨h1, h2⟩]

lemma chunkStep_acc (chunks : List (List Char)) (cur line : List Char)
    (h : ¬(maxChunkSize < cur.length + line.length ∧ 0 < cur.length)) :
    chunkStep (chunks, cur) line =
      (chunks, if cur.isEmpty then line else cur ++ '\n' :: line) := by
  unfold chunkStep
  rw [if_neg h]

lemma chunkStep_chunks_le (st : List (List Char) × List Char) (line : List Char) :
    st.1.length ≤ (chunkStep st line).1.length := by
  unfold chunkStep
  split
  · simp
  · exact le_refl _

lemma foldl_chunkStep_chunks_le (ls : List (List Char)) :
    ∀ st : List (List Char) × List Char, st.1.length ≤ (ls.foldl chunkStep st).1.length := by
  induction ls with
  | nil => intro st; exact le_refl _
  | cons l ls ih =>
    intro st
    simp only [List.foldl_cons]
    exact le_trans (chunkStep_chunks_le st l) (ih (chunkStep st l))

lemma foldl_chunkStep_cur_last (ls : List (List Char)) :
    ∀ st : List (List Char) × List Char, ls ≠ [] →
      ∃ pre, (ls.foldl chunkStep st).2 = pre ++ lastLine ls := by
  induction ls with
  | nil => intro st h; exact absurd rfl h
  | cons l ls ih =>
    intro st _
    cases ls with
    | nil =>
      simp only [List.foldl_cons, List.foldl_nil]
      unfold chunkStep
      split
      · exact ⟨[], by simp [lastLine]⟩
      · split
        · exact ⟨[], by simp [lastLine]⟩
        · exact ⟨st.2 ++ ['\n'], by simp [lastLine]⟩
    | cons b t =>
      simp only [List.foldl_cons]
      have h2 := ih (chunkStep st l) (by simp)
      have hlast : lastLine (l :: b :: t) = lastLine (b :: t) := rfl
      rw [hlast]
      exact h2

lemma flushChunks_length_of_ne (st : List (List Char) × List Char)
    (h : jsTrim st.2 ≠ []) : (flushChunks st).length = st.1.length + 1 := by
  unfold flushChunks
  cases hjt : jsTrim st.2 with
  | nil => exact absurd hjt h
  | cons a t => simp

lemma flush_after_nonblank (ls : List (List Char)) (st : List (List Char) × List Char)
    (hne : ls ≠ []) (hlast : jsTrim (lastLine ls) ≠ []) :
    st.1.length + 1 ≤ (flushChunks (ls.foldl chunkStep st)).length := by
  obtain ⟨pre, hpre⟩ := foldl_chunkStep_cur_last ls st hne
  have hex : ∃ c ∈ lastLine ls, isJsWs c = false := by
    by_contra hcon
    push_neg at hcon
    apply hlast
    refine (jsTrim_eq_nil_iff _).mpr (fun c hc => ?_)
    have hcf := hcon c hc
    cases h : isJsWs c
    · exact absurd h hcf
    · rfl
  obtain ⟨c, hcmem, hcws⟩ := hex
  have hcur : jsTrim (ls.foldl chunkStep st).2 ≠ [] := by
    apply jsTrim_ne_nil_of_mem _ c _ hcws
    rw [hpre]
    exact List.mem_append.mpr (Or.inr hcmem)
  rw [flushChunks_length_of_ne _ hcur]
  have := foldl_chunkStep_chunks_le ls st
  omega

lemma chunker_two_chunks (ls : List (List Char)) :
    ∀ chunks : List (List Char), ∀ cur : List Char,
      (∀ l ∈ ls, l.length ≤ maxChunkSize) →
      maxChunkSize < cur.length + (ls.map List.length).sum →
      ls ≠ [] →
      jsTrim (lastLine ls) ≠ [] →
      chunks.length + 2 ≤ (flushChunks (ls.foldl chunkStep (chunks, cur))).length := by
  induction ls with
  | nil => intro chunks cur _ _ h _; exact absurd rfl h
  | cons l ls ih =>
    intro chunks cur hlen hsum _ hlast
    cases ls with
    | nil =>
      have hl : l.length ≤ maxChunkSize := hlen l (by simp)
      have hsum' : maxChunkSize < cur.length + l.length := by
        simp only [List.map_cons, List.map_nil, List.sum_cons, List.sum_nil] at hsum
        omega
      have hcur : 0 < cur.length := by omega
      simp only [List.foldl_cons, List.foldl_nil,
        chunkStep_split chunks cur l hsum' hcur]
      have hjl : jsTrim l ≠ [] := hlast
      rw [flushChunks_length_of_ne _ hjl]
      simp
    | cons b t =>
      by_cases hcond : maxChunkSize < cur.length + l.length ∧ 0 < cur.length
      · simp only [List.foldl_cons, chunkStep_split chunks cur l hcond.1 hcond.2]
        have hstep := flush_after_nonblank (b :: t) (chunks ++ [jsTrim cur], l)
          (by simp) hlast
        simp only [List.length_append, List.length_cons, List.length_nil] at hstep
        simp only [← List.foldl_cons]
        omega
      · simp only [List.foldl_cons, chunkStep_acc chunks cur l hcond]
        have hlen' : ∀ x ∈ b :: t, x.length ≤ maxChunkSize :=
          fun x hx => hlen x (List.mem_cons_of_mem _ hx)
        have hcurlen :
            cur.length + l.length ≤ (if cur.isEmpty then l else cur ++ '\n' :: l).length := by
          cases cur with
          | nil => simp
          | cons a u => simp [List.length_append]; omega
        have hsum' : maxChunkSize <
            (if cur.isEmpty then l else cur ++ '\n' :: l).length +
              ((b :: t).map List.length).sum := by
          simp only [List.map_cons, List.sum_cons] at hsum ⊢
          omega
        exact ih chunks (if cur.isEmpty then l else cur ++ '\n' :: l)
          hlen' hsum' (by simp) hlast

/-- Claim C4 counterexample: 1001 characters spread over three lines of
400, 400 and 199 characters (no line over the limit) yield a single
chunk — the accumulation check adds line lengths without counting the
separating newlines it re-inserts. -/
theorem claim_C4_counterexample :
    maxChunkSize < c4Content.length ∧
    (∀ l ∈ splitLines c4Content.data, l.length ≤ maxChunkSize) ∧
    (splitContent c4Content).length = 1 :=
  ⟨by decide, by decide, by decide⟩

/-- Claim C4 amended: at least two chunks are produced when the line
lengths themselves (newline separators excluded) sum to more than
`maxChunkSize`, no line exceeds `maxChunkSize`, and the last line is
not blank.  The original claim fails in two ways the hypotheses rule
out: the loop compares `currentChunk.length + line.length` without the
separators it re-inserts, and a whitespace-only tail is dropped by the
final trim. -/
theorem claim_C4_amended (content : String)
    (hlines : ∀ l ∈ splitLines content.data, l.length ≤ maxChunkSize)
    (hsum : maxChunkSize < ((splitLines content.data).map List.length).sum)
    (hlast : jsTrim (lastLine (splitLines content.data)) ≠ []) :
    2 ≤ (splitContent content).length := by
  have hne : splitLines content.data ≠ [] := splitLines_ne_nil content.data
  have hmain := chunker_two_chunks (splitLines content.data) [] []
    hlines (by simpa using hsum) hne hlast
  have hchunks : 2 ≤ (chunksOf content.data).length := by
    simpa [chunksOf] using hmain
  cases hcs : chunksOf content.data with
  | nil => rw [hcs] at hchunks; simp at hchunks
  | cons a t =>
    rw [hcs] at hchunks
    simp only [splitContent, hcs]
    simpa using hchunks

/-- Witness for the amended C4 at concrete two-line content of 600
characters each. -/
theorem claim_C4_witness :
    2 ≤ (splitContent ⟨List.replicate 600 'a' ++ '\n' :: List.replicate 600 'b'⟩).length :=
  claim_C4_amended ⟨List.replicate 600 'a' ++ '\n' :: List.replicate 600 'b'⟩
    (by decide) (by decide) (by decide)

/-! ## Claim C8

A global match count is monotone under appending text on the right
when the matcher satisfies three properties: a match survives the
append unchanged (the regexes have no right context beyond their own
characters), every match consumes at least one character, and a match
appearing at a position where none existed before can only straddle
the old end of the string, in which case the old string contained no
match at all (for `X\s*\(` because it then contains no `(`; for
`&&|\|\|` because it is at most one character long). -/

lemma scanAux_skip {α : Type} (tryf : List Char → Option (α × List Char)) (u : List Char) :
    ∀ v, scanAux tryf (u ++ v) u.length = scanAux tryf v 0 := by
  induction u with
  | nil => intro v; rfl
  | cons c u' ih =>
    intro v
    exact ih v

lemma jsMatchAll_step {α : Type} (tryf : List Char → Option (α × List Char))
    (c : Char) (rest : List Char) (h : tryf (c :: rest) = none) :
    jsMatchAll tryf (c :: rest) = jsMatchAll tryf rest := by
  have hrw : scanAux tryf (c :: rest) 0 =
      match tryf (c :: rest) with
      | some (a, r) => a :: scanAux tryf rest ((c :: rest).length - 1 - r.length)
      | none => scanAux tryf rest 0 := rfl
  unfold jsMatchAll
  rw [hrw, h]

lemma jsMatchAll_jump {α : Type} (tryf : List Char → Option (α × List Char))
    (a : α) (r x : List Char) (hx : x ≠ [])
    (htry : tryf (x ++ r) = some (a, r)) :
    jsMatchAll tryf (x ++ r) = a :: jsMatchAll tryf r := by
  cases x with
  | nil => exact absurd rfl hx
  | cons c x' =>
    have htry' : tryf (c :: (x' ++ r)) = some (a, r) := htry
    have hstep : scanAux tryf (c :: (x' ++ r)) 0 =
        a :: scanAux tryf (x' ++ r) ((c :: (x' ++ r)).length - 1 - r.length) := by
      have hrw : scanAux tryf (c :: (x' ++ r)) 0 =
          match tryf (c :: (x' ++ r)) with
          | some (a, r') =>
            a :: scanAux tryf (x' ++ r) ((c :: (x' ++ r)).length - 1 - r'.length)
          | none => scanAux tryf (x' ++ r) 0 := rfl
      rw [hrw, htry']
    have hlen : (c :: (x' ++ r)).length - 1 - r.length = x'.length := by
      simp [List.length_append]
    unfold jsMatchAll
    show scanAux tryf (c :: (x' ++ r)) 0 = a :: scanAux tryf r 0
    rw [hstep, hlen, scanAux_skip]

lemma jsMatchAll_mono {α : Type} (tryf : List Char → Option (α × List Char))
    (hP1 : ∀ s t a r, tryf s = some (a, r) → tryf (s ++ t) = some (a, r ++ t))
    (hP3 : ∀ s a r, tryf s = some (a, r) → ∃ x, s = x ++ r ∧ x ≠ [])
    (hP2 : ∀ s t, tryf s = none → tryf (s ++ t) ≠ none → jsMatchAll tryf s = [])
    (s t : List Char) :
    (jsMatchAll tryf s).length ≤ (jsMatchAll tryf (s ++ t)).length := by
  suffices hsuf : ∀ n s, s.length ≤ n →
      (jsMatchAll tryf s).length ≤ (jsMatchAll tryf (s ++ t)).length from
    hsuf s.length s le_rfl
  intro n
  induction n with
  | zero =>
    intro s hle
    have hnil : s = [] := List.eq_nil_of_length_eq_zero (Nat.le_zero.mp hle)
    subst hnil
    have h0 : jsMatchAll tryf [] = ([] : List α) := rfl
    simp [h0]
  | succ n ih =>
    intro s hle
    cases s with
    | nil =>
      have h0 : jsMatchAll tryf [] = ([] : List α) := rfl
      simp [h0]
    | cons c rest =>
      cases htry : tryf (c :: rest) with
      | some ar =>
        obtain ⟨a, r⟩ := ar
        obtain ⟨x, hx, hxne⟩ := hP3 _ _ _ htry
        have htry2 := hP1 _ t _ _ htry
        rw [hx] at htry htry2 ⊢
        have hassoc : (x ++ r) ++ t = x ++ (r ++ t) := by simp
        rw [hassoc] at htry2 ⊢
        rw [jsMatchAll_jump tryf a r x hxne htry,
        jsMatchAll_jump tryf a (r ++ t) x hxne htry2]
        have hrlen : r.length ≤ n := by
          have hlx := congrArg List.length hx
          cases x with
          | nil => exact absurd rfl hxne
          | cons y ys =>
            simp only [List.length_cons, List.length_append] at hlx hle
            omega
        have := ih r hrlen
        simp only [List.length_cons]
        omega
      | none =>
        cases htry2 : tryf ((c :: rest) ++ t) with
        | some ar2 =>
          have hz := hP2 (c :: rest) t htry (by rw [htry2]; simp)
          rw [hz]
          simp
        | none =>
          rw [jsMatchAll_step tryf c rest htry]
          have hc2 : ((c :: rest) ++ t) = c :: (rest ++ t) := rfl
          rw [hc2] at htry2
          rw [hc2, jsMatchAll_step tryf c (rest ++ t) htry2]
          apply ih rest
          simp only [List.length_cons] at hle
          omega

lemma kwParenTry_some_iff (kw s r : List Char) :
    kwParenTry kw s = some ((), r) ↔
      startsWithChars kw s = true ∧
      (s.drop kw.length).dropWhile isJsWs = '(' :: r := by
  unfold kwParenTry
  by_cases hsw : startsWithChars kw s = true
  · rw [if_pos hsw]
    cases hdw : (s.drop kw.length).dropWhile isJsWs with
    | nil => simp [hsw]
    | cons c cs =>
      by_cases hc : c = '('
      · subst hc
        simp [hsw]
      · simp only [if_neg hc]
        constructor
        · intro h; exact absurd h (by simp)
        · rintro ⟨_, hdw2⟩
          exact absurd (List.cons.injEq .. ▸ hdw2).1 hc
  · rw [if_neg hsw]
    constructor
    · intro h; exact absurd h (by simp)
    · rintro ⟨h1, _⟩; exact absurd h1 hsw

lemma kwParenTry_decomp (kw s r : List Char) (h : kwParenTry kw s = some ((), r)) :
    s = (kw ++ (s.drop kw.length).takeWhile isJsWs ++ ['(']) ++ r := by
  obtain ⟨hsw, hdw⟩ := (kwParenTry_some_iff kw s r).mp h
  have h1 := startsWithChars_eq_append kw s hsw
  have h2 := (s.drop kw.length).takeWhile_append_dropWhile isJsWs
  rw [hdw] at h2
  calc s = kw ++ s.drop kw.length := h1
    _ = kw ++ ((s.drop kw.length).takeWhile isJsWs ++ '(' :: r) := by rw [h2]
    _ = (kw ++ (s.drop kw.length).takeWhile isJsWs ++ ['(']) ++ r := by simp

lemma kwParenTry_append (kw s t r : List Char) (h : kwParenTry kw s = some ((), r)) :
    kwParenTry kw (s ++ t) = some ((), r ++ t) := by
  obtain ⟨hsw, hdw⟩ := (kwParenTry_some_iff kw s r).mp h
  refine (kwParenTry_some_iff kw (s ++ t) (r ++ t)).mpr
    ⟨startsWithChars_append kw s t hsw, ?_⟩
  have hklen : kw.length ≤ s.length := startsWithChars_length kw s hsw
  rw [List.drop_append_of_le_length hklen, List.dropWhile_append, hdw]
  simp

lemma kwParenTry_progress (kw s r : List Char) (h : kwParenTry kw s = some ((), r)) :
    ∃ x, s = x ++ r ∧ x ≠ [] :=
  ⟨kw ++ (s.drop kw.length).takeWhile isJsWs ++ ['('], kwParenTry_decomp kw s r h, by simp⟩

lemma kwParenTry_paren_mem (kw s r : List Char) (h : kwParenTry kw s = some ((), r)) :
    '(' ∈ s := by
  rw [kwParenTry_decomp kw s r h]
  simp

lemma jsMatchAll_kwParen_no_paren (kw : List Char) (s : List Char) (hs : '(' ∉ s) :
    jsMatchAll (kwParenTry kw) s = [] := by
  induction s with
  | nil => rfl
  | cons c rest ih =>
    have htry : kwParenTry kw (c :: rest) = none := by
      cases htry : kwParenTry kw (c :: rest) with
      | none => rfl
      | some ar =>
        obtain ⟨u, r⟩ := ar
        cases u
        exact absurd (kwParenTry_paren_mem kw _ r htry) hs
    rw [jsMatchAll_step _ c rest htry]
    exact ih (fun hm => hs (List.mem_cons_of_mem _ hm))

lemma kwParenTry_straddle (kw : List Char) (hkw : '(' ∉ kw) (s t : List Char)
    (hnone : kwParenTry kw s = none) (hsome : kwParenTry kw (s ++ t) ≠ none) :
    jsMatchAll (kwParenTry kw) s = [] := by
  apply jsMatchAll_kwParen_no_paren
  intro hparen
  obtain ⟨⟨u, r⟩, hsr⟩ : ∃ ar, kwParenTry kw (s ++ t) = some ar := by
    cases h : kwParenTry kw (s ++ t) with
    | none => exact absurd h hsome
    | some ar => exact ⟨ar, rfl⟩
  cases u
  obtain ⟨hsw2, hdw2⟩ := (kwParenTry_some_iff kw (s ++ t) r).mp hsr
  by_cases hsw : startsWithChars kw s = true
  · have hklen : kw.length ≤ s.length := startsWithChars_length kw s hsw
    have hdwnil : (s.drop kw.length).dropWhile isJsWs = [] := by
      cases hdw : (s.drop kw.length).dropWhile isJsWs with
      | nil => rfl
      | cons c cs =>
        exfalso
        rw [List.drop_append_of_le_length hklen, List.dropWhile_append, hdw] at hdw2
        simp only [List.isEmpty_cons, Bool.false_eq_true, if_false, List.cons_append,
          List.cons.injEq] at hdw2
        have hsome2 : kwParenTry kw s = some ((), cs) :=
          (kwParenTry_some_iff kw s cs).mpr ⟨hsw, by rw [hdw, hdw2.1]⟩
        rw [hsome2] at hnone
        exact absurd hnone (by simp)
    have hall : ∀ c ∈ s.drop kw.length, isJsWs c = true :=
      List.dropWhile_eq_nil_iff.mp hdwnil
    have hs : s = kw ++ s.drop kw.length := startsWithChars_eq_append kw s hsw
    rw [hs] at hparen
    rcases List.mem_append.mp hparen with h1 | h1
    · exact hkw h1
    · exact absurd (hall '(' h1) (by decide)
  · have hswf : startsWithChars kw s = false := by
      cases h : startsWithChars kw s
      · rfl
      · exact absurd h hsw
    exact hkw (startsWithChars_short_mem kw s t hsw2 hswf '(' hparen)

lemma countKwParen_mono (kw : List Char) (hkw : '(' ∉ kw) (s t : List Char) :
    (jsMatchAll (kwParenTry kw) s).length ≤ (jsMatchAll (kwParenTry kw) (s ++ t)).length := by
  apply jsMatchAll_mono
  · intro s' t' a r h
    cases a
    exact kwParenTry_append kw s' t' r h
  · intro s' a r h
    cases a
    exact kwParenTry_progress kw s' r h
  · intro s' t' h1 h2
    exact kwParenTry_straddle kw hkw s' t' h1 h2

lemma opTry_some_iff (s r : List Char) :
    opTry s = some ((), r) ↔
      ∃ c1 c2, s = c1 :: c2 :: r ∧
        ((c1 = '&' ∧ c2 = '&') ∨ (c1 = '|' ∧ c2 = '|')) := by
  cases s with
  | nil => simp [opTry]
  | cons c1 s1 =>
    cases s1 with
    | nil => simp [opTry]
    | cons c2 s2 =>
      simp only [opTry]
      by_cases hc : (c1 = '&' ∧ c2 = '&') ∨ (c1 = '|' ∧ c2 = '|')
      · rw [if_pos hc]
        constructor
        · intro h
          simp only [Option.some.injEq, Prod.mk.injEq, true_and] at h
          exact ⟨c1, c2, by rw [h], hc⟩
        · rintro ⟨d1, d2, heq, _⟩
          simp only [List.cons.injEq] at heq
          rw [heq.2.2]
      · rw [if_neg hc]
        constructor
        · intro h; exact absurd h (by simp)
        · rintro ⟨d1, d2, heq, hd⟩
          simp only [List.cons.injEq] at heq
          obtain ⟨h1, h2, _⟩ := heq
          subst h1; subst h2
          exact absurd hd hc

lemma opTry_append (s t r : List Char) (h : opTry s = some ((), r)) :
    opTry (s ++ t) = some ((), r ++ t) := by
  obtain ⟨c1, c2, hs, hc⟩ := (opTry_some_iff s r).mp h
  refine (opTry_some_iff (s ++ t) (r ++ t)).mpr ⟨c1, c2, ?_, hc⟩
  rw [hs]
  simp

lemma opTry_progress (s r : List Char) (h : opTry s = some ((), r)) :
    ∃ x, s = x ++ r ∧ x ≠ [] := by
  obtain ⟨c1, c2, hs, _⟩ := (opTry_some_iff s r).mp h
  exact ⟨[c1, c2], by simpa using hs, by simp⟩

lemma opTry_straddle (s t : List Char)
    (hnone : opTry s = none) (hsome : opTry (s ++ t) ≠ none) :
    jsMatchAll opTry s = [] := by
  obtain ⟨⟨u, r⟩, hsr⟩ : ∃ ar, opTry (s ++ t) = some ar := by
    cases h : opTry (s ++ t) with
    | none => exact absurd h hsome
    | some ar => exact ⟨ar, rfl⟩
  cases u
  obtain ⟨c1, c2, hs, hc⟩ := (opTry_some_iff (s ++ t) r).mp hsr
  cases s with
  | nil => rfl
  | cons d1 s1 =>
    cases s1 with
    | nil =>
      have h1 : opTry [d1] = none := rfl
      rw [jsMatchAll_step opTry d1 [] h1]
      rfl
    | cons d2 s2 =>
      exfalso
      simp only [List.cons_append, List.cons.injEq] at hs
      obtain ⟨h1, h2, _⟩ := hs
      subst h1; subst h2
      have hop : opTry (d1 :: d2 :: s2) = some ((), s2) :=
        (opTry_some_iff _ s2).mpr ⟨d1, d2, rfl, hc⟩
      rw [hop] at hnone
      exact absurd hnone (by simp)

lemma countOp_mono (s t : List Char) :
    (jsMatchAll opTry s).length ≤ (jsMatchAll opTry (s ++ t)).length := by
  apply jsMatchAll_mono
  · intro s' t' a r h
    cases a
    exact opTry_append s' t' r h
  · intro s' a r h
    cases a
    exact opTry_progress s' r h
  · intro s' t' h1 h2
    exact opTry_straddle s' t' h1 h2

/-- Claim C8: appending text to a content string never decreases the
complexity score — each of the six global match counts summed by
`calculateComplexity` is monotone under appending on the right. -/
theorem claim_C8 (s t : String) :
    calculateComplexity s ≤ calculateComplexity (s ++ t) := by
  unfold calculateComplexity
  rw [String.data_append]
  have h1 := countKwParen_mono "if".data (by decide) s.data t.data
  have h2 := countKwParen_mono "for".data (by decide) s.data t.data
  have h3 := countKwParen_mono "while".data (by decide) s.data t.data
  have h4 := countKwParen_mono "switch".data (by decide) s.data t.data
  have h5 := countKwParen_mono "catch".data (by decide) s.data t.data
  have h6 := countOp_mono s.data t.data
  omega

end CompanyRag
